import Mathlib

/-!
Shallow embedding of `worm.py`, a recursive plain-text search utility, together
with proofs settling the specification claims about it.

Conventions of the embedding:
* Python strings are `List Char` (or Lean `String` for file and directory
  names); Python `str` indices are `Nat`.
* The filesystem seen by `os.walk` is a finite rose tree (`FSTree`/`Forest`):
  each directory holds a list of file names and a list of named
  subdirectories, listed in OS order.
* Fallible I/O (`open`/`read` in `search_file`) is an `Except String` value:
  `Except.ok content` for a successful UTF-8 read, `Except.error e` for any
  `OSError`/`UnicodeDecodeError`, mirroring the `try/except Exception` block.
* `re.finditer(re.escape(query), content)` is embedded by its semantics on an
  escaped (all-literal) pattern: a left-to-right scan reporting leftmost
  non-overlapping literal occurrences, where a zero-width (empty-pattern)
  match advances the scan position by one, exactly as CPython's `finditer`
  does; that scan is `find_matches_from` below.
-/

/-- `EXCLUDE_PATTERNS` from `worm.py`: directory names pruned from the walk
(membership tests are exact and case-sensitive, as for a Python `set` of
strings). -/
def EXCLUDE_PATTERNS : List String :=
  ["node_modules", ".git", "dist", "build", "__pycache__",
   ".pytest_cache", "venv", "env", "backups"]

/-- `BINARY_EXTENSIONS` from `worm.py`: extensions treated as non-text. -/
def BINARY_EXTENSIONS : List String :=
  [".zip", ".gz", ".tar", ".rar", ".7z",
   ".db", ".db.bak", ".sqlite", ".sqlite3",
   ".jpg", ".jpeg", ".png", ".gif",
   ".pyc", ".pyo", ".pyd",
   ".so", ".dll", ".dylib",
   ".exe", ".bin",
   ".bak", ".log"]

/-- Index of the last `'.'` in a list of characters (Python `str.rfind('.')`,
as `Option`). -/
def lastDotIdx : List Char → Option Nat
  | [] => none
  | c :: cs =>
    match lastDotIdx cs with
    | some i => some (i + 1)
    | none => if c = '.' then some (0 : Nat) else none

/-- `pathlib.PurePath.suffix` for a bare file name: the substring from the
last dot onward, but only when that dot is neither the first nor the last
character of the name (`0 < i < len(name) - 1` in CPython); otherwise the
empty string.  In particular a dotfile such as `".bak"` and a name ending in
`'.'` have suffix `""`. -/
def pathSuffix (name : String) : String :=
  match lastDotIdx name.data with
  | some i => if 0 < i ∧ i + 1 < name.data.length then String.mk (name.data.drop i) else ""
  | none => ""

/-- Python `str.lower()` on a file extension (character-wise lowering; the
extensions involved are ASCII). -/
def lowerStr (s : String) : String :=
  String.mk (s.data.map Char.toLower)

/-- The filter applied to each file name by `find_files`:
`Path(file).suffix.lower() in BINARY_EXTENSIONS`. -/
def is_binary_like (f : String) : Bool :=
  lowerStr (pathSuffix f) ∈ BINARY_EXTENSIONS

/-- The extension of a file name as the specification words it: the substring
after the last `.` in the base name, including the dot, lower-cased; a name
with no dot has no extension.  Stated only to compare the spec's wording with
the implementation's `pathSuffix`. -/
def claimedExt (name : String) : String :=
  match lastDotIdx name.data with
  | some i => String.mk ((name.data.drop i).map Char.toLower)
  | none => ""

mutual
/-- A directory as seen by `os.walk`: the files it directly contains and its
named subdirectories, in OS listing order. -/
inductive FSTree : Type where
| node (files : List String) (subdirs : Forest) : FSTree
/-- The ordered list of named subdirectories of a directory. -/
inductive Forest : Type where
| nil : Forest
| cons (name : String) (tree : FSTree) (rest : Forest) : Forest
end

mutual
/-- `find_files` from `worm.py`, on the tree model: `os.walk` visits a
directory, prunes subdirectory names in `EXCLUDE_PATTERNS` before descending
(`dirs[:] = [d for d in dirs if d not in EXCLUDE_PATTERNS]`), yields every
file whose `Path(file).suffix.lower()` is not in `BINARY_EXTENSIONS`, then
recurses into the kept subdirectories.  A yielded path is its list of
components below the walk root (directory names followed by the file name). -/
def find_files : FSTree → List (List String)
| FSTree.node files subdirs =>
    (files.filter (fun f => !(is_binary_like f))).map (fun f => [f]) ++ walkForest subdirs
/-- The part of `find_files` that walks a pruned-or-not list of
subdirectories: an excluded name is dropped before descent, so its subtree is
never visited. -/
def walkForest : Forest → List (List String)
| Forest.nil => []
| Forest.cons name t rest =>
    (if name ∈ EXCLUDE_PATTERNS then [] else (find_files t).map (fun p => name :: p))
      ++ walkForest rest
end

/-- The characters CPython's `re.escape` prefixes with a backslash
(`re._special_chars_map`): `()[]{}?*+-|^$\.&~#` and the ASCII whitespace
characters. -/
def RE_SPECIAL : List Char :=
  ['(', ')', '[', ']', Char.ofNat 0x7b, Char.ofNat 0x7d,
   '?', '*', '+', '-', '|', '^', '$', '\\', '.', '&', '~', '#',
   ' ', '\t', '\n', '\r', Char.ofNat 0x0b, Char.ofNat 0x0c]

/-- `sanitize_search_term` from `worm.py`, i.e. `re.escape(term)`: every
pattern-special character is prefixed with a backslash, so the resulting
pattern matches exactly the literal `term`. -/
def sanitize_search_term (term : List Char) : List Char :=
  term.flatMap (fun c => if c ∈ RE_SPECIAL then ['\\', c] else [c])

/-- `query` occurs literally at offset `i` of `content`. -/
def occursAt (query content : List Char) (i : Nat) : Bool :=
  query.isPrefixOf (content.drop i)

/-- The scan performed by `re.finditer(pattern, content)` for an all-literal
(escaped) pattern matching the literal `query`, from position `p` on: report
the leftmost occurrence at or after `p`, then resume just past it — one past
it for a zero-width (empty-query) match, as CPython's `finditer` advances
over empty matches.  `fuel` is a structural-recursion bound; the scan needs
at most `content.length + 1 - p` steps. -/
def find_matches_from (query content : List Char) : Nat → Nat → List Nat
  | 0, _ => []
  | fuel + 1, p =>
    if p ≤ content.length then
      if occursAt query content p then
        p :: find_matches_from query content fuel (p + max query.length 1)
      else
        find_matches_from query content fuel (p + 1)
    else []

/-- `find_matches` from `worm.py`:
`[m.start() for m in re.finditer(sanitize_search_term(query), content)]`,
embedded by the semantics of `finditer` on the escaped (all-literal)
pattern: the offsets of the leftmost non-overlapping literal occurrences of
`query` in `content`, in ascending order, an empty query matching (with zero
width) at every position. -/
def find_matches (content query : List Char) : List Nat :=
  find_matches_from query content (content.length + 1) 0

example : find_matches "aaaa".data "aa".data = [0, 2] := by decide
example : find_matches "a".data "".data = [0, 1] := by decide
example : find_matches "".data "".data = [0] := by decide
example : find_matches "aXb".data "a.b".data = [] := by decide
example : find_matches "xa.by".data "a.b".data = [1] := by decide
example : find_matches "aXbYc".data "a.b*c".data = [] := by decide
example : find_matches "za.b*cz".data "a.b*c".data = [1] := by decide
example : sanitize_search_term "a.b".data = ['a', '\\', '.', 'b'] := by decide

example : find_files (FSTree.node [".bak"] Forest.nil) = [[".bak"]] := by decide

/-- The context-window constant of `format_snippet` (`context: int = 50`). -/
def CONTEXT : Nat := 50

/-- `format_snippet` from `worm.py`:
`start = max(0, index - context)`, `end = min(len(content), index + context)`,
returning `"..." + content[start:end] + "..."`.  `Nat` subtraction is exactly
`max(0, index - context)`, and the Python slice of the clamped bounds is
`(content.take end).drop start` (empty when the range is empty or inverted). -/
def format_snippet (content : List Char) (index : Nat) (context : Nat) : List Char :=
  "...".data ++ ((content.take (min content.length (index + context))).drop (index - context))
    ++ "...".data

/-- `format_snippet` exactly as the specification words it, with the clamping
written over the integers: `start = max(0, offset - context)`,
`end = min(length(content), offset + context)`, result
`"..." + content[start:end] + "..."`.  Stated only to compare with the
implementation's `format_snippet`. -/
def format_snippet_spec (content : List Char) (offset context : Nat) : List Char :=
  "...".data ++
    ((content.take (min (content.length : Int) ((offset : Int) + context)).toNat).drop
      (max 0 ((offset : Int) - context)).toNat)
    ++ "...".data

example : format_snippet "hello world".data 0 CONTEXT = "...hello world...".data := by decide
example : format_snippet "ab".data 100 CONTEXT = "......".data := by decide

/-- The result dictionary built by `search_file`: the invocation-relative
path and the snippet per match, in match order. -/
structure FileMatch where
  path : List String
  snippets : List (List Char)
deriving DecidableEq

/-- `os.path.relpath` for the paths `main` hands to `search_file`: those are
`os.path.join('.', components…)`, and `relpath` (relative to the current
working directory) strips the leading `"."` component. -/
def relpath (p : List String) : List String :=
  match p with
  | "." :: rest => rest
  | q => q

/-- Render a component path the way `worm.py` prints it (`os.path.join`
output on POSIX). -/
def pathStr (p : List String) : String :=
  String.intercalate "/" p

/-- The diagnostic line `search_file` prints on a failed read:
`f"Error processing {path}: {e}"`. -/
def errorLine (p : List String) (e : String) : String :=
  "Error processing " ++ pathStr p ++ ": " ++ e

/-- `search_file` from `worm.py`.  The `try` block's read is the
`Except String (List Char)` argument: on `Except.error e` the `except`
branch prints the diagnostic and returns `None`; on `Except.ok content` it
computes `find_matches`, and returns the result dictionary when matches is
non-empty, `None` (falling off the function) otherwise.  The returned pair is
(result, diagnostic lines printed). -/
def search_file (path : List String) (readResult : Except String (List Char))
    (query : List Char) : Option FileMatch × List String :=
  match readResult with
  | Except.error e => (none, [errorLine path e])
  | Except.ok content =>
    let ms := find_matches content query
    if ms.isEmpty then (none, [])
    else (some ⟨relpath path, ms.map (fun index => format_snippet content index CONTEXT)⟩, [])

/-- The observable outcome of `main`'s loop over the discovered files: the
`FileMatch`es printed, the diagnostic lines printed, and the final value of
`results_found`. -/
structure RunResult where
  results : List FileMatch
  diagnostics : List String
  found : Bool
deriving DecidableEq

/-- The `for file in find_files('.')` loop of `main`, over the discovered
files paired with what reading each of them yields: each file goes through
`search_file`; a result appends a `FileMatch` to the printed output and sets
`results_found`; diagnostics accumulate in order. -/
def runLoop (query : List Char) :
    List (List String × Except String (List Char)) → Bool → RunResult
  | [], found => ⟨[], [], found⟩
  | (p, r) :: rest, found =>
    let step := search_file p r query
    let res := runLoop query rest (found || step.1.isSome)
    ⟨step.1.toList ++ res.results, step.2 ++ res.diagnostics, res.found⟩

/-- `main`'s search phase: the loop starting from `results_found = False`. -/
def main_run (files : List (List String × Except String (List Char)))
    (query : List Char) : RunResult :=
  runLoop query files false

/-- Whether `main` prints the final `"No matches found."` line:
`if not results_found`. -/
def no_matches_printed (files : List (List String × Except String (List Char)))
    (query : List Char) : Bool :=
  !(main_run files query).found

example :
    main_run [(["x.txt"], Except.ok "ab".data), (["y.txt"], Except.error "denied"),
      (["z.txt"], Except.ok "cabd".data)] "ab".data =
    ⟨[⟨["x.txt"], ["...ab...".data]⟩, ⟨["z.txt"], ["...cabd...".data]⟩],
     ["Error processing y.txt: denied"], true⟩ := by decide

example : no_matches_printed [(["x.txt"], Except.ok "ab".data)] "zz".data = true := by decide
example : claimedExt ".bak" = ".bak" := by decide
example : pathSuffix ".bak" = "" := by decide
example : pathSuffix "a.PNG" = ".PNG" := by decide
example : is_binary_like "a.PNG" = true := by decide
example : find_files (FSTree.node ["a.txt", "b.png"]
    (Forest.cons "node_modules" (FSTree.node ["c.txt"] Forest.nil)
      (Forest.cons "src" (FSTree.node ["d.txt"] Forest.nil) Forest.nil))) =
    [["a.txt"], ["src", "d.txt"]] := by decide

/-- Every offset the scan reports lies at or after the scan's start. -/
theorem mem_find_matches_from_le (query content : List Char) :
    ∀ fuel p i, i ∈ find_matches_from query content fuel p → p ≤ i := by
  intro fuel
  induction fuel with
  | zero => intro p i h; simp [find_matches_from] at h
  | succ fuel ih =>
    intro p i h
    rw [find_matches_from] at h
    by_cases hp : p ≤ content.length
    · rw [if_pos hp] at h
      by_cases ho : occursAt query content p
      · rw [if_pos ho] at h
        rcases List.mem_cons.mp h with rfl | h
        · exact Nat.le_refl _
        · have := ih _ _ h; omega
      · rw [if_neg ho] at h
        have := ih _ _ h; omega
    · rw [if_neg hp] at h
      simp at h

/-- Every offset the scan reports is a literal occurrence of the query. -/
theorem mem_find_matches_from_occurs (query content : List Char) :
    ∀ fuel p i, i ∈ find_matches_from query content fuel p →
      occursAt query content i = true := by
  intro fuel
  induction fuel with
  | zero => intro p i h; simp [find_matches_from] at h
  | succ fuel ih =>
    intro p i h
    rw [find_matches_from] at h
    by_cases hp : p ≤ content.length
    · rw [if_pos hp] at h
      by_cases ho : occursAt query content p
      · rw [if_pos ho] at h
        rcases List.mem_cons.mp h with rfl | h
        · exact ho
        · exact ih _ _ h
      · rw [if_neg ho] at h
        exact ih _ _ h
    · rw [if_neg hp] at h
      simp at h

/-- Consecutive reported offsets are at least `max query.length 1` apart:
the scan resumes past the previous match. -/
theorem find_matches_from_chain (query content : List Char) :
    ∀ fuel p, List.Chain' (fun i j => i + max query.length 1 ≤ j)
      (find_matches_from query content fuel p) := by
  intro fuel
  induction fuel with
  | zero => intro p; simp [find_matches_from]
  | succ fuel ih =>
    intro p
    rw [find_matches_from]
    by_cases hp : p ≤ content.length
    · rw [if_pos hp]
      by_cases ho : occursAt query content p
      · rw [if_pos ho]
        refine List.chain'_cons'.mpr ⟨?_, ih _⟩
        intro j hj
        exact mem_find_matches_from_le query content fuel _ j (List.mem_of_mem_head? hj)
      · rw [if_neg ho]; exact ih _
    · rw [if_neg hp]; simp

/-- A non-empty query cannot occur past the end of the content. -/
theorem not_occursAt_of_lt (query content : List Char) (i : Nat) (hq : query ≠ [])
    (hi : content.length ≤ i) : occursAt query content i = false := by
  rw [occursAt, List.drop_eq_nil_of_le hi]
  cases query with
  | nil => exact absurd rfl hq
  | cons a as => rfl

/-- Greedy completeness of the scan: with enough fuel, every literal
occurrence of a non-empty query at or after the scan start is covered by some
reported offset — it is reported itself, or it overlaps the reported
occurrence beginning at most `query.length - 1` positions before it. -/
theorem find_matches_from_complete (query content : List Char) (hq : query ≠ []) :
    ∀ fuel p i, content.length + 1 ≤ fuel + p → p ≤ i →
      occursAt query content i = true →
      ∃ j ∈ find_matches_from query content fuel p, j ≤ i ∧ i < j + query.length := by
  intro fuel
  induction fuel with
  | zero =>
    intro p i hfuel hpi hocc
    exact absurd hocc (by simp [not_occursAt_of_lt query content i hq (by omega)])
  | succ fuel ih =>
    intro p i hfuel hpi hocc
    rw [find_matches_from]
    by_cases hp : p ≤ content.length
    · rw [if_pos hp]
      by_cases ho : occursAt query content p
      · rw [if_pos ho]
        by_cases hi : i < p + query.length
        · exact ⟨p, List.mem_cons_self _ _, hpi, hi⟩
        · have h1 : 1 ≤ query.length := List.length_pos.mpr hq
          have hmax : max query.length 1 = query.length := by omega
          rw [hmax]
          obtain ⟨j, hjmem, hji⟩ := ih (p + query.length) i (by omega) (by omega) hocc
          exact ⟨j, List.mem_cons_of_mem _ hjmem, hji⟩
      · rw [if_neg ho]
        have hne : i ≠ p := by
          intro h; rw [h] at hocc; exact ho hocc
        exact ih (p + 1) i (by omega) (by omega) hocc
    · exact absurd hocc (by simp [not_occursAt_of_lt query content i hq (by omega)])

/-- For the empty query the scan reports every position from its start to the
end of the content. -/
theorem find_matches_from_empty (content : List Char) :
    ∀ fuel p, fuel + p = content.length + 1 →
      find_matches_from [] content fuel p = List.range' p fuel := by
  intro fuel
  induction fuel with
  | zero => intro p h; simp [find_matches_from, List.range']
  | succ fuel ih =>
    intro p h
    rw [find_matches_from, if_pos (by omega : p ≤ content.length),
      if_pos (by simp [occursAt, List.isPrefixOf] : occursAt [] content p = true),
      List.range'_succ]
    show p :: find_matches_from [] content fuel (p + max 0 1) = _
    rw [ih (p + max 0 1) (by omega)]
    norm_num

/-- A character of the content inside a literal occurrence agrees with the
corresponding character of the query. -/
theorem occursAt_getElem (query content : List Char) (j k : Nat)
    (h : occursAt query content j = true) (hk : k < query.length) :
    content[j + k]? = query[k]? := by
  rw [occursAt] at h
  obtain ⟨t, ht⟩ := List.isPrefixOf_iff_prefix.mp h
  rw [← List.getElem?_drop, ← ht, List.getElem?_append_left hk]

/-- Two occurrences of a query at distance `d < query.length` force the
query's character at `d` to repeat its first character. -/
theorem occursAt_overlap (query content : List Char) (j d : Nat)
    (hd : d < query.length)
    (h1 : occursAt query content j = true)
    (h2 : occursAt query content (j + d) = true) :
    query[d]? = query[0]? := by
  have e1 : content[j + d]? = query[d]? := occursAt_getElem query content j d h1 hd
  have e2 : content[j + d + 0]? = query[0]? :=
    occursAt_getElem query content (j + d) 0 h2 (by omega)
  rw [Nat.add_zero] at e2
  rw [← e1, ← e2]

/-- `find_matches` reports only literal occurrences. -/
theorem find_matches_sound (content query : List Char) (i : Nat)
    (h : i ∈ find_matches content query) : occursAt query content i = true :=
  mem_find_matches_from_occurs query content _ 0 i h

/-- Consecutive offsets of `find_matches` are at least `max query.length 1`
apart. -/
theorem find_matches_chain (content query : List Char) :
    List.Chain' (fun i j => i + max query.length 1 ≤ j) (find_matches content query) :=
  find_matches_from_chain query content _ 0

/-- The offsets of `find_matches` are strictly ascending. -/
theorem find_matches_chain_lt (content query : List Char) :
    List.Chain' (fun i j => i < j) (find_matches content query) :=
  List.Chain'.imp (fun a b h => by omega) (find_matches_chain content query)

/-- Greedy completeness of `find_matches` for a non-empty query: every
literal occurrence is covered by a reported non-overlapping occurrence. -/
theorem find_matches_complete (content query : List Char) (hq : query ≠ []) (i : Nat)
    (hocc : occursAt query content i = true) :
    ∃ j ∈ find_matches content query, j ≤ i ∧ i < j + query.length :=
  find_matches_from_complete query content hq _ 0 i (by omega) (by omega) hocc

/-- For a query none of whose later characters repeats its first character,
occurrences can never overlap, so `find_matches` reports exactly the literal
occurrences. -/
theorem mem_find_matches_iff (content query : List Char) (hq : query ≠ [])
    (hdist : ∀ d, 0 < d → d < query.length → query[d]? ≠ query[0]?) (i : Nat) :
    i ∈ find_matches content query ↔ occursAt query content i = true := by
  constructor
  · exact find_matches_sound content query i
  · intro hocc
    obtain ⟨j, hjmem, hji, hlt⟩ := find_matches_complete content query hq i hocc
    rcases Nat.eq_or_lt_of_le hji with rfl | hlt2
    · exact hjmem
    · exfalso
      have hocc_j : occursAt query content j = true :=
        find_matches_sound content query j hjmem
      have hd : i - j < query.length := by omega
      have hocc_i : occursAt query content (j + (i - j)) = true := by
        rwa [Nat.add_sub_cancel' (Nat.le_of_lt hlt2)]
      exact hdist (i - j) (by omega) hd
        (occursAt_overlap query content j (i - j) hd hocc_j hocc_i)

/-- C1, counterexample: searching for the empty string in the non-empty
content `"a"` does not yield zero matches — `find_matches` reports a
zero-width match at every position (offsets 0 and 1), so the claimed
empty-sequence policy fails on the code. -/
theorem C1_counterexample :
    find_matches "a".data "".data = [0, 1] ∧ find_matches "a".data "".data ≠ [] := by
  decide

/-- C1 (amended): for every content string, `find_matches(content, "")`
returns a match offset at every position `0, 1, …, length(content)` — the
empty query is treated as matching everywhere (`length + 1` zero-width
matches), not as yielding zero matches. -/
theorem C1_empty_query_matches_everywhere :
    ∀ content : List Char, find_matches content "".data = List.range (content.length + 1) := by
  intro content
  show find_matches_from [] content (content.length + 1) 0 = _
  rw [find_matches_from_empty content (content.length + 1) 0 (by omega),
    List.range_eq_range']

/-- C2: the query is matched as a literal string — `find_matches(content,
"a.b")` returns an offset `i` exactly when the three-character literal
`"a.b"` occurs at `i` in `content`; in particular `"aXb"` yields no match for
query `"a.b"`, and `"aXbYc"` yields no match for query `"a.b*c"`. -/
theorem C2_literal_matching :
    (∀ (content : List Char) (i : Nat),
      i ∈ find_matches content "a.b".data ↔ occursAt "a.b".data content i = true) ∧
    find_matches "aXb".data "a.b".data = [] ∧
    find_matches "aXbYc".data "a.b*c".data = [] := by
  refine ⟨?_, by decide, by decide⟩
  intro content i
  apply mem_find_matches_iff
  · decide
  · intro d hd0 hdlen
    have h3 : ("a.b".data).length = 3 := rfl
    rw [h3] at hdlen
    interval_cases d
    · decide
    · decide

/-- C3: for a non-empty query, `find_matches` returns exactly the offsets of
the greedy left-to-right non-overlapping occurrences: every returned offset
is an occurrence, consecutive offsets are at least `query.length` apart (the
search resumes at `i + L` after a match at `i`), the list is strictly
ascending, every occurrence overlaps some returned one (none is skipped),
and in particular `find_matches("aaaa", "aa") = [0, 2]`. -/
theorem C3_nonoverlapping_occurrences :
    (∀ content query : List Char, query ≠ [] →
      (∀ i ∈ find_matches content query, occursAt query content i = true) ∧
      List.Chain' (fun i j => i + query.length ≤ j) (find_matches content query) ∧
      List.Chain' (fun i j => i < j) (find_matches content query) ∧
      (∀ i, occursAt query content i = true →
        ∃ j ∈ find_matches content query, j ≤ i ∧ i < j + query.length)) ∧
    find_matches "aaaa".data "aa".data = [0, 2] := by
  refine ⟨?_, by decide⟩
  intro content query hq
  have h1 : 1 ≤ query.length := List.length_pos.mpr hq
  have hmax : max query.length 1 = query.length := by omega
  refine ⟨fun i hi => find_matches_sound content query i hi, ?_,
    find_matches_chain_lt content query,
    fun i hocc => find_matches_complete content query hq i hocc⟩
  have hch := find_matches_chain content query
  rwa [hmax] at hch

/-- C3, witness: the non-overlap law instantiated at content `"aaaa"` and
query `"aa"`. -/
theorem C3_witness :
    List.Chain' (fun i j => i + ("aa".data).length ≤ j)
      (find_matches "aaaa".data "aa".data) :=
  (C3_nonoverlapping_occurrences.1 "aaaa".data "aa".data (by decide)).2.1

/-- A directory component of a one-longer path: it is the prepended directory
name or a directory component of the tail. -/
theorem mem_dropLast_cons {α : Type} (d name : α) (p : List α)
    (hd : d ∈ (name :: p).dropLast) : d = name ∨ d ∈ p.dropLast := by
  cases p with
  | nil => simp [List.dropLast] at hd
  | cons a as =>
    rw [List.dropLast_cons₂] at hd
    exact List.mem_cons.mp hd

mutual
/-- Every path `find_files` yields has at least one component (the file
name). -/
theorem find_files_ne_nil : ∀ (t : FSTree) (p : List String), p ∈ find_files t → p ≠ []
  | FSTree.node files subdirs, p, hp => by
    simp only [find_files] at hp
    rcases List.mem_append.mp hp with h | h
    · obtain ⟨f, _, rfl⟩ := List.mem_map.mp h
      simp
    · exact walkForest_ne_nil subdirs p h
/-- Every path `walkForest` yields has at least one component. -/
theorem walkForest_ne_nil : ∀ (fo : Forest) (p : List String), p ∈ walkForest fo → p ≠ []
  | Forest.nil, p, hp => by simp [walkForest] at hp
  | Forest.cons name t rest, p, hp => by
    simp only [walkForest] at hp
    rcases List.mem_append.mp hp with h | h
    · by_cases hex : name ∈ EXCLUDE_PATTERNS
      · rw [if_pos hex] at h; simp at h
      · rw [if_neg hex] at h
        obtain ⟨q, _, rfl⟩ := List.mem_map.mp h
        simp
    · exact walkForest_ne_nil rest p h
end

mutual
/-- No directory component of a path yielded by `find_files` is an excluded
name: excluded subtrees are pruned before descent. -/
theorem find_files_no_excluded_component :
    ∀ (t : FSTree) (p : List String), p ∈ find_files t →
      ∀ d ∈ p.dropLast, d ∉ EXCLUDE_PATTERNS
  | FSTree.node files subdirs, p, hp => by
    simp only [find_files] at hp
    rcases List.mem_append.mp hp with h | h
    · obtain ⟨f, _, rfl⟩ := List.mem_map.mp h
      intro d hd
      simp [List.dropLast] at hd
    · exact walkForest_no_excluded_component subdirs p h
/-- No directory component of a path yielded by `walkForest` is an excluded
name. -/
theorem walkForest_no_excluded_component :
    ∀ (fo : Forest) (p : List String), p ∈ walkForest fo →
      ∀ d ∈ p.dropLast, d ∉ EXCLUDE_PATTERNS
  | Forest.nil, p, hp => by simp [walkForest] at hp
  | Forest.cons name t rest, p, hp => by
    simp only [walkForest] at hp
    rcases List.mem_append.mp hp with h | h
    · by_cases hex : name ∈ EXCLUDE_PATTERNS
      · rw [if_pos hex] at h; simp at h
      · rw [if_neg hex] at h
        obtain ⟨q, hq, rfl⟩ := List.mem_map.mp h
        intro d hd
        rcases mem_dropLast_cons d name q hd with rfl | hd2
        · exact hex
        · exact find_files_no_excluded_component t q hq d hd2
    · exact walkForest_no_excluded_component rest p h
end

mutual
/-- The last component (the file name) of every path `find_files` yields
passes the binary-extension filter. -/
theorem find_files_last_not_binary :
    ∀ (t : FSTree) (p : List String) (f : String), p ∈ find_files t →
      p.getLast? = some f → is_binary_like f = false
  | FSTree.node files subdirs, p, f, hp, hl => by
    simp only [find_files] at hp
    rcases List.mem_append.mp hp with h | h
    · obtain ⟨g, hg, rfl⟩ := List.mem_map.mp h
      have : g = f := by simpa using hl
      subst this
      simpa using (List.mem_filter.mp hg).2
    · exact walkForest_last_not_binary subdirs p f h hl
/-- The last component of every path `walkForest` yields passes the
binary-extension filter. -/
theorem walkForest_last_not_binary :
    ∀ (fo : Forest) (p : List String) (f : String), p ∈ walkForest fo →
      p.getLast? = some f → is_binary_like f = false
  | Forest.nil, p, f, hp, _ => by simp [walkForest] at hp
  | Forest.cons name t rest, p, f, hp, hl => by
    simp only [walkForest] at hp
    rcases List.mem_append.mp hp with h | h
    · by_cases hex : name ∈ EXCLUDE_PATTERNS
      · rw [if_pos hex] at h; simp at h
      · rw [if_neg hex] at h
        obtain ⟨q, hq, rfl⟩ := List.mem_map.mp h
        have hq_ne : q ≠ [] := find_files_ne_nil t q hq
        cases q with
        | nil => exact absurd rfl hq_ne
        | cons a as =>
          rw [List.getLast?_cons_cons] at hl
          exact find_files_last_not_binary t (a :: as) f hq hl
    · exact walkForest_last_not_binary rest p f h hl
end

/-- C4, counterexample: the file name `".bak"` has, in the claim's sense, the
extension `".bak"` (the substring after its last dot, lower-cased), which is
in `BINARY_EXTENSIONS` — yet the walker yields it, because `Path.suffix` of a
dotfile is the empty string.  So a binary-set extension under the claim's
definition of "extension" does not guarantee the file is skipped. -/
theorem C4_counterexample :
    claimedExt ".bak" ∈ BINARY_EXTENSIONS ∧
    find_files (FSTree.node [".bak"] Forest.nil) = [[".bak"]] := by
  decide

/-- C4 (amended): the extension is the one `pathlib.Path.suffix` extracts —
the substring from the last `.` of the base name only when that dot is
neither the name's first nor last character, and the empty string otherwise
(so dotfiles such as `".bak"` count as having no extension).  Every file the
walker yields has `suffix.lower()` outside the binary-extension set
(regardless of content, which the walker never reads); a file with no
extension in this sense is never classified as binary-like and is yielded
from the directory that contains it (subject only to directory exclusion). -/
theorem C4_extension_filtering :
    (∀ (t : FSTree) (p : List String) (f : String),
      p ∈ find_files t → p.getLast? = some f → is_binary_like f = false) ∧
    (∀ f : String, pathSuffix f = "" → is_binary_like f = false) ∧
    (∀ (files : List String) (subdirs : Forest) (f : String),
      f ∈ files → is_binary_like f = false →
      [f] ∈ find_files (FSTree.node files subdirs)) := by
  refine ⟨find_files_last_not_binary, ?_, ?_⟩
  · intro f hf
    rw [is_binary_like, hf]
    decide
  · intro files subdirs f hf hb
    simp only [find_files]
    exact List.mem_append.mpr
      (Or.inl (List.mem_map.mpr ⟨f, List.mem_filter.mpr ⟨hf, by simp [hb]⟩, rfl⟩))

/-- C4, witness: the amended theorem applied to a concrete tree — the yielded
file `"b.txt"` is not binary-like, and the extensionless file `"noext"` is
yielded. -/
theorem C4_witness :
    is_binary_like "b.txt" = false ∧
    ["noext"] ∈ find_files (FSTree.node ["noext"] Forest.nil) :=
  ⟨C4_extension_filtering.1 (FSTree.node ["a.png", "b.txt"] Forest.nil)
      ["b.txt"] "b.txt" (by decide) (by decide),
   C4_extension_filtering.2.2 ["noext"] Forest.nil "noext" (by decide)
      (C4_extension_filtering.2.1 "noext" (by decide))⟩

/-- C5: no path the walker yields has a directory component equal to an
excluded name (so no file inside an excluded subdirectory, at any depth,
ever appears), and exclusion prunes the subtree before descent: walking a
directory list whose head is excluded is literally walking the rest, the
excluded subtree contributing nothing. -/
theorem C5_exclusion_pruning :
    (∀ (t : FSTree) (p : List String), p ∈ find_files t →
      ∀ d ∈ p.dropLast, d ∉ EXCLUDE_PATTERNS) ∧
    (∀ (name : String) (t : FSTree) (rest : Forest), name ∈ EXCLUDE_PATTERNS →
      walkForest (Forest.cons name t rest) = walkForest rest) := by
  refine ⟨find_files_no_excluded_component, ?_⟩
  intro name t rest hex
  simp only [walkForest, if_pos hex, List.nil_append]

/-- C5, witness: the exclusion theorem applied to a concrete tree with a
`"src"` subdirectory and to a concrete `"node_modules"` subtree. -/
theorem C5_witness :
    (∀ d ∈ (["src", "a.txt"] : List String).dropLast, d ∉ EXCLUDE_PATTERNS) ∧
    walkForest (Forest.cons "node_modules" (FSTree.node ["y.txt"] Forest.nil) Forest.nil)
      = walkForest Forest.nil :=
  ⟨C5_exclusion_pruning.1
      (FSTree.node ["b.txt"] (Forest.cons "src" (FSTree.node ["a.txt"] Forest.nil) Forest.nil))
      ["src", "a.txt"] (by decide),
   C5_exclusion_pruning.2 "node_modules" (FSTree.node ["y.txt"] Forest.nil) Forest.nil
      (by decide)⟩

/-- C6: `format_snippet` returns exactly `"..." + content[start:end] + "..."`
with `start = max(0, offset - context)` and
`end = min(length(content), offset + context)` (the spec's formula, computed
over the integers, coincides with the implementation), the ellipsis markers
added unconditionally; and for a match at offset 0 in content shorter than
`context` the inner substring is the entire content, with no out-of-range
slicing. -/
theorem C6_snippet_clamping :
    (∀ (content : List Char) (offset context : Nat),
      format_snippet content offset context = format_snippet_spec content offset context) ∧
    (∀ (content : List Char) (context : Nat), content.length < context →
      format_snippet content 0 context = "...".data ++ content ++ "...".data) := by
  constructor
  · intro content offset context
    have h1 : (max 0 ((offset : Int) - context)).toNat = offset - context := by omega
    have h2 : (min (content.length : Int) ((offset : Int) + context)).toNat =
        min content.length (offset + context) := by omega
    rw [format_snippet, format_snippet_spec, h1, h2]
  · intro content context hlen
    have hmin : min content.length (0 + context) = content.length := by omega
    rw [format_snippet, hmin, Nat.zero_sub, List.drop_zero, List.take_length]

/-- C6, witness: a match at offset 0 in `"hi"` (shorter than the default
context of 50) produces the snippet wrapping the entire content. -/
theorem C6_witness :
    format_snippet "hi".data 0 CONTEXT = "...".data ++ "hi".data ++ "...".data :=
  C6_snippet_clamping.2 "hi".data CONTEXT (by decide)

/-- C10: `format_snippet` is total over every content, offset (also offsets
past the end of the content) and context: the result always begins and ends
with `"..."`, the inner substring never exceeds `2 * context` characters,
and an empty or inverted clamped range (offset at least `content.length +
context`) yields the empty inner substring rather than an error. -/
theorem C10_snippet_total :
    ∀ (content : List Char) (index context : Nat),
      (∃ inner, format_snippet content index context =
        "...".data ++ inner ++ "...".data ∧ inner.length ≤ context + context) ∧
      (content.length ≤ index - context →
        format_snippet content index context = "...".data ++ "...".data) := by
  intro content index context
  constructor
  · refine ⟨(content.take (min content.length (index + context))).drop (index - context),
      rfl, ?_⟩
    simp only [List.length_drop, List.length_take]
    omega
  · intro h
    rw [format_snippet]
    have hnil : (content.take (min content.length (index + context))).drop (index - context)
        = [] := by
      apply List.drop_eq_nil_of_le
      simp only [List.length_take]
      omega
    rw [hnil, List.append_nil]

/-- C10, witness: an offset far past the end of the content produces the
bare ellipses, with no out-of-range access. -/
theorem C10_witness :
    format_snippet "ab".data 60 2 = "...".data ++ "...".data :=
  (C10_snippet_total "ab".data 60 2).2 (by decide)

/-- Unfolding of `runLoop` on the empty file list. -/
theorem runLoop_nil (query : List Char) (b : Bool) :
    runLoop query [] b = ⟨[], [], b⟩ := rfl

/-- Unfolding of one iteration of `main`'s loop. -/
theorem runLoop_cons (query : List Char) (p : List String)
    (r : Except String (List Char))
    (rest : List (List String × Except String (List Char))) (b : Bool) :
    runLoop query ((p, r) :: rest) b =
      ⟨(search_file p r query).1.toList
         ++ (runLoop query rest (b || (search_file p r query).1.isSome)).results,
       (search_file p r query).2
         ++ (runLoop query rest (b || (search_file p r query).1.isSome)).diagnostics,
       (runLoop query rest (b || (search_file p r query).1.isSome)).found⟩ := rfl

/-- The `results_found` accumulator influences neither the matches printed
nor the diagnostics printed. -/
theorem runLoop_accumulator_invariant (query : List Char) :
    ∀ (files : List (List String × Except String (List Char))) (b b' : Bool),
      (runLoop query files b).results = (runLoop query files b').results ∧
      (runLoop query files b).diagnostics = (runLoop query files b').diagnostics := by
  intro files
  induction files with
  | nil => intro b b'; exact ⟨rfl, rfl⟩
  | cons x rest ih =>
    intro b b'
    obtain ⟨p, r⟩ := x
    rw [runLoop_cons, runLoop_cons]
    have h := ih (b || (search_file p r query).1.isSome)
      (b' || (search_file p r query).1.isSome)
    exact ⟨by rw [h.1], by rw [h.2]⟩

/-- `main`'s loop processes a concatenation of file lists independently:
output and diagnostics are the concatenations of the per-segment ones. -/
theorem runLoop_append (query : List Char) :
    ∀ (xs ys : List (List String × Except String (List Char))) (b : Bool),
      (runLoop query (xs ++ ys) b).results =
        (runLoop query xs b).results ++ (runLoop query ys false).results ∧
      (runLoop query (xs ++ ys) b).diagnostics =
        (runLoop query xs b).diagnostics ++ (runLoop query ys false).diagnostics := by
  intro xs
  induction xs with
  | nil =>
    intro ys b
    rw [List.nil_append, runLoop_nil]
    have h := runLoop_accumulator_invariant query ys b false
    exact ⟨h.1, h.2⟩
  | cons x rest ih =>
    intro ys b
    obtain ⟨p, r⟩ := x
    rw [List.cons_append, runLoop_cons, runLoop_cons]
    have h := ih ys (b || (search_file p r query).1.isSome)
    exact ⟨by rw [h.1, List.append_assoc], by rw [h.2, List.append_assoc]⟩

/-- The final value of `results_found` is true exactly when it started true
or some file produced a match. -/
theorem runLoop_found (query : List Char) :
    ∀ (files : List (List String × Except String (List Char))) (b : Bool),
      (runLoop query files b).found = (b || !(runLoop query files b).results.isEmpty) := by
  intro files
  induction files with
  | nil => intro b; rw [runLoop_nil]; simp
  | cons x rest ih =>
    intro b
    obtain ⟨p, r⟩ := x
    rw [runLoop_cons]
    show (runLoop query rest (b || (search_file p r query).1.isSome)).found = _
    rw [ih (b || (search_file p r query).1.isSome)]
    cases hs : (search_file p r query).1 with
    | none => simp [hs]
    | some m => simp [hs]

/-- C7: a file whose read fails contributes no match and exactly one
diagnostic line naming its path and the error, and the failure is strictly
local — the matches of a run containing the failing file are exactly the
matches of the files before it followed by the matches of the files after
it, and its diagnostics are those of the other files with the failing file's
single line inserted in order, so no other file's processing is affected and
the loop runs to completion. -/
theorem C7_failure_isolation :
    (∀ (p : List String) (e : String) (q : List Char),
      search_file p (Except.error e) q = (none, [errorLine p e])) ∧
    (∀ (q : List Char) (xs ys : List (List String × Except String (List Char)))
      (p : List String) (e : String),
      (main_run (xs ++ (p, Except.error e) :: ys) q).results =
        (main_run xs q).results ++ (main_run ys q).results ∧
      (main_run (xs ++ (p, Except.error e) :: ys) q).diagnostics =
        (main_run xs q).diagnostics ++ errorLine p e :: (main_run ys q).diagnostics) := by
  constructor
  · intro p e q; rfl
  · intro q xs ys p e
    have happ := runLoop_append q xs ((p, Except.error e) :: ys) false
    have hcons := runLoop_cons q p (Except.error e) ys false
    have hmid : search_file p (Except.error e) q = (none, [errorLine p e]) := rfl
    rw [main_run, main_run, main_run, happ.1, happ.2, hcons, hmid]
    exact ⟨rfl, rfl⟩

/-- C8: `search_file` returns a `FileMatch` exactly when the read succeeded
and the offset list is non-empty; the match's path is the invocation-relative
path, its snippets are one per match offset following the strictly ascending
offset order, and hence every returned `FileMatch` has at least one
snippet. -/
theorem C8_file_match_structure :
    (∀ (p : List String) (r : Except String (List Char)) (q : List Char) (m : FileMatch),
      (search_file p r q).1 = some m →
      ∃ content, r = Except.ok content ∧
        find_matches content q ≠ [] ∧
        m.path = relpath p ∧
        m.snippets = (find_matches content q).map (fun i => format_snippet content i CONTEXT) ∧
        m.snippets ≠ [] ∧
        List.Chain' (fun i j => i < j) (find_matches content q)) ∧
    (∀ (p : List String) (content q : List Char),
      find_matches content q ≠ [] →
      (search_file p (Except.ok content) q).1 =
        some ⟨relpath p, (find_matches content q).map (fun i => format_snippet content i CONTEXT)⟩) ∧
    (∀ (p : List String) (content q : List Char),
      find_matches content q = [] → (search_file p (Except.ok content) q).1 = none) ∧
    (∀ (p : List String) (e : String) (q : List Char),
      (search_file p (Except.error e) q).1 = none) := by
  refine ⟨?_, ?_, ?_, fun p e q => rfl⟩
  · intro p r q m hm
    cases r with
    | error e => exact absurd hm (by simp [search_file])
    | ok content =>
      refine ⟨content, rfl, ?_⟩
      by_cases hempty : (find_matches content q).isEmpty
      · exact absurd hm (by simp [search_file, hempty])
      · have hne : find_matches content q ≠ [] := by
          intro h; rw [h] at hempty; exact hempty rfl
        have hm2 : some (⟨relpath p,
            (find_matches content q).map (fun i => format_snippet content i CONTEXT)⟩ :
            FileMatch) = some m := by
          rw [← hm]
          simp [search_file, hempty]
        have hmeq := Option.some.inj hm2
        refine ⟨hne, ?_, ?_, ?_, find_matches_chain_lt content q⟩
        · rw [← hmeq]
        · rw [← hmeq]
        · rw [← hmeq]
          simpa using hne
  · intro p content q hne
    have hempty : (find_matches content q).isEmpty = false := by
      cases h : find_matches content q with
      | nil => exact absurd h hne
      | cons a as => rfl
    simp [search_file, hempty]
  · intro p content q hnil
    simp [search_file, hnil]

/-- C8, witness: the structure theorem applied to a concrete successful read
with one match. -/
theorem C8_witness :
    (search_file ["a.txt"] (Except.ok "xaax".data) "aa".data).1 =
      some ⟨relpath ["a.txt"],
        (find_matches "xaax".data "aa".data).map
          (fun i => format_snippet "xaax".data i CONTEXT)⟩ :=
  C8_file_match_structure.2.1 ["a.txt"] "xaax".data "aa".data (by decide)

/-- C9: the `"No matches found."` notice is printed exactly when the loop
completes with zero matches across all files — printed when no file produced
a `FileMatch`, suppressed as soon as at least one did. -/
theorem C9_no_matches_notice :
    ∀ (files : List (List String × Except String (List Char))) (q : List Char),
      no_matches_printed files q = true ↔ (main_run files q).results = [] := by
  intro files q
  rw [no_matches_printed, main_run, runLoop_found q files false]
  cases h : (runLoop q files false).results with
  | nil => simp [main_run, h]
  | cons a as => simp [main_run, h]

/-- C2, witness: the literal-match characterization applied at a concrete
content containing `"a.b"` at offset 1. -/
theorem C2_witness :
    1 ∈ find_matches "za.bz".data "a.b".data :=
  (C2_literal_matching.1 "za.bz".data 1).mpr (by decide)

/-- C9, witness: the notice criterion applied to a concrete run with no
match. -/
theorem C9_witness :
    no_matches_printed [(["x.txt"], Except.ok "ab".data)] "zz".data = true :=
  (C9_no_matches_notice [(["x.txt"], Except.ok "ab".data)] "zz".data).mpr (by decide)
